import Mathlib

/-!
# Verification of the MoltMemory obfuscated-math-challenge solver

Shallow embedding of the verification solver in `src/moltbook.py`
(`_word_matches_at`, `_find_numbers`, `_dedup`, `solve_challenge`) over
`List Char`.  Python floats are modelled as rationals (the operands are
small integers converted from extracted numbers, so the modelled
arithmetic coincides with the source's except for the final rounding of
inexact quotients, which the claims do not pin to a bit pattern).
Python statements that can raise (list indexing, division) are modelled
in an `Except PyErr` monad.  Character classes (`isalpha`, `isdigit`,
`\s`, `\w`, `lower`) are modelled at ASCII scope, which covers every
concrete input appearing below.
-/

namespace Molt

/-- A number token `(value, start, end)` exactly as the Python triples in
`_find_numbers.raw`. -/
abbrev Tok := Nat × Nat × Nat

/-- The `_W2N` dictionary of `moltbook.py` (insertion order preserved). -/
def W2N : List (List Char × Nat) :=
  [("zero".toList, 0), ("one".toList, 1), ("two".toList, 2), ("three".toList, 3),
   ("four".toList, 4), ("five".toList, 5), ("six".toList, 6), ("seven".toList, 7),
   ("eight".toList, 8), ("nine".toList, 9), ("ten".toList, 10), ("eleven".toList, 11),
   ("twelve".toList, 12), ("thirteen".toList, 13), ("fourteen".toList, 14),
   ("fifteen".toList, 15), ("sixteen".toList, 16), ("seventeen".toList, 17),
   ("eighteen".toList, 18), ("nineteen".toList, 19), ("twenty".toList, 20),
   ("thirty".toList, 30), ("forty".toList, 40), ("fifty".toList, 50),
   ("sixty".toList, 60), ("seventy".toList, 70), ("eighty".toList, 80),
   ("ninety".toList, 90), ("hundred".toList, 100), ("thousand".toList, 1000),
   ("twenny".toList, 20), ("twnty".toList, 20), ("fourty".toList, 40)]

/-- `_SORTED_WORDS = sorted(_W2N.keys(), key=len, reverse=True)`: the keys in
insertion order, stably sorted by length, longest first. -/
def SORTED_WORDS : List (List Char) :=
  ["seventeen".toList,
   "thirteen".toList, "fourteen".toList, "eighteen".toList, "nineteen".toList,
   "thousand".toList,
   "fifteen".toList, "sixteen".toList, "seventy".toList, "hundred".toList,
   "eleven".toList, "twelve".toList, "twenty".toList, "thirty".toList,
   "eighty".toList, "ninety".toList, "twenny".toList, "fourty".toList,
   "three".toList, "seven".toList, "eight".toList, "forty".toList,
   "fifty".toList, "sixty".toList, "twnty".toList,
   "zero".toList, "four".toList, "five".toList, "nine".toList,
   "one".toList, "two".toList, "six".toList, "ten".toList]

/-- `_W2N.get(word, 0)` (and `_W2N[word]` on dictionary keys). -/
def w2n (w : List Char) : Nat := (W2N.lookup w).getD 0

/-- The tens tuple `(20, 30, 40, 50, 60, 70, 80, 90)` used by `_find_numbers`. -/
def tensVals : List Nat := [20, 30, 40, 50, 60, 70, 80, 90]

/-- Length of the run of consecutive characters equal to `c` in `text`
starting at index `ti` — the Python inner loop computing `run_end - ti`. -/
def runLen (text : List Char) (ti : Nat) (c : Char) : Nat :=
  ((text.drop ti).takeWhile (fun x => x == c)).length

/-- The character walk of `_word_matches_at`: remaining word characters,
a flag telling whether we are at the word's first character (`wi = 0`),
the text index `ti` and the substitutions used so far.  Returns the text
position after the match, or `none`. -/
def wmAux (text : List Char) (bnds : List Nat) (maxSubs : Nat) :
    List Char → Bool → Nat → Nat → Option Nat
  | [], _, ti, _ => some ti
  | c :: rest, first, ti, subs =>
    if text.length ≤ ti then none
    else if text.getD ti ' ' = c then
      wmAux text bnds maxSubs rest false
        (if rest.isEmpty then
          (if bnds.contains (ti + runLen text ti c) then ti + runLen text ti c else ti + 1)
         else if rest.head? = some c then ti + 1
         else ti + runLen text ti c) subs
    else
      if subs < maxSubs && !first && !rest.isEmpty then
        wmAux text bnds maxSubs rest false (ti + 1) (subs + 1)
      else none

/-- `_word_matches_at(word, text, pos, max_subs, boundaries)`.  All call
sites in the source pass an explicit boundary set, so `bnds` is always
the boundary set of the scanned view. -/
def wordMatchesAt (w text : List Char) (pos maxSubs : Nat) (bnds : List Nat) : Option Nat :=
  wmAux text bnds maxSubs w true pos 0

/-- Instrumented clone of `wmAux` that also returns the final substitution
counter; used to state how many substitutions a successful match charged. -/
def wmAuxC (text : List Char) (bnds : List Nat) (maxSubs : Nat) :
    List Char → Bool → Nat → Nat → Option (Nat × Nat)
  | [], _, ti, subs => some (ti, subs)
  | c :: rest, first, ti, subs =>
    if text.length ≤ ti then none
    else if text.getD ti ' ' = c then
      wmAuxC text bnds maxSubs rest false
        (if rest.isEmpty then
          (if bnds.contains (ti + runLen text ti c) then ti + runLen text ti c else ti + 1)
         else if rest.head? = some c then ti + 1
         else ti + runLen text ti c) subs
    else
      if subs < maxSubs && !first && !rest.isEmpty then
        wmAuxC text bnds maxSubs rest false (ti + 1) (subs + 1)
      else none

/-- The `alpha`/`boundaries` construction at the top of `_find_numbers`:
concatenate the alphanumeric characters and record the positions (in the
concatenated string) that immediately follow a maximal alphanumeric run. -/
def mkAlphaBndAux : List Char → List Char → List Nat → Bool → List Char × List Nat
  | [], alpha, bnds, inRun => (alpha, if inRun then bnds ++ [alpha.length] else bnds)
  | c :: rest, alpha, bnds, inRun =>
    if c.isAlpha || c.isDigit then mkAlphaBndAux rest (alpha ++ [c]) bnds true
    else if inRun then mkAlphaBndAux rest alpha (bnds ++ [alpha.length]) false
    else mkAlphaBndAux rest alpha bnds false

/-- `(ad, boundaries)` for a lowercased input text. -/
def mkAlphaBnd (textLower : List Char) : List Char × List Nat :=
  mkAlphaBndAux textLower [] [] false

/-- `next_is_num`: some dictionary word matches (substitution-free) at `e`. -/
def nextIsNum (ad : List Char) (bnds : List Nat) (e : Nat) : Bool :=
  SORTED_WORDS.any (fun w2 => (wordMatchesAt w2 ad e 0 bnds).isSome)

/-- The acceptance test of `_find_numbers`: at a run boundary, or the next
position begins another number word, or a 1–9 units word directly after a
tens token. -/
def acceptTok (ad : List Char) (bnds : List Nat) (prevTens : Bool)
    (w : List Char) (e : Nat) : Bool :=
  bnds.contains e || nextIsNum ad bnds e ||
    (prevTens && (decide (1 ≤ w2n w) && decide (w2n w ≤ 9)))

/-- `prev_is_tens`: the previous token ends exactly at `pos` and its value is
a tens multiple in 20..90. -/
def prevIsTensB (prev : Option Tok) (pos : Nat) : Bool :=
  match prev with
  | some (v, _, e) => decide (e = pos) && tensVals.contains v
  | none => false

/-- One `for word in _SORTED_WORDS` pass: keep the accepted match with the
largest end offset (`end > best_end`, ties to the earlier word).  `minLen`
is 0 for the first pass and 5 for the substitution-fallback pass (which
skips shorter words). -/
def pickBest (ad : List Char) (bnds : List Nat) (pos : Nat) (prevTens : Bool)
    (maxSubs minLen : Nat) : List (List Char) → Option Nat → Nat → Option (Nat × Nat)
  | [], bestVal, bestEnd => bestVal.map (fun v => (v, bestEnd))
  | w :: ws, bestVal, bestEnd =>
    if w.length < minLen then pickBest ad bnds pos prevTens maxSubs minLen ws bestVal bestEnd
    else
      match wordMatchesAt w ad pos maxSubs bnds with
      | none => pickBest ad bnds pos prevTens maxSubs minLen ws bestVal bestEnd
      | some e =>
        if bestEnd < e && acceptTok ad bnds prevTens w e then
          pickBest ad bnds pos prevTens maxSubs minLen ws (some (w2n w)) e
        else pickBest ad bnds pos prevTens maxSubs minLen ws bestVal bestEnd

/-- The word-match part of one scan iteration: the plain pass over all
words with no substitutions (`best_val, best_end = None, pos`), then —
only if it produced nothing — the fallback pass over words of length at
least 5 with one substitution. -/
def bestMatch (ad : List Char) (bnds : List Nat) (pos : Nat) (prevTens : Bool) :
    Option (Nat × Nat) :=
  match pickBest ad bnds pos prevTens 0 0 SORTED_WORDS none pos with
  | some r => some r
  | none => pickBest ad bnds pos prevTens 1 5 SORTED_WORDS none pos

/-- Numeric value of a digit string, as Python's `int`. -/
def natOfDigits (ds : List Char) : Nat :=
  ds.foldl (fun a c => a * 10 + (c.toNat - 48)) 0

/-- The main scan loop of `_find_numbers`, with an explicit fuel bound on
the number of iterations.  Every iteration advances `pos` by at least one
(proved below), so `fuel = ad.length` runs the loop to completion; the
fuel-exhausted case mirrors loop exit. -/
def scanAux (ad : List Char) (bnds : List Nat) : Nat → Nat → List Tok → List Tok
  | 0, _, acc => acc.reverse
  | fuel + 1, pos, acc =>
    if pos < ad.length then
      if (ad.getD pos ' ').isDigit then
        let ds := (ad.drop pos).takeWhile Char.isDigit
        scanAux ad bnds fuel (pos + ds.length) ((natOfDigits ds, pos, pos + ds.length) :: acc)
      else
        match bestMatch ad bnds pos (prevIsTensB acc.head? pos) with
        | some (v, e) => scanAux ad bnds fuel e ((v, pos, e) :: acc)
        | none => scanAux ad bnds fuel (pos + 1) acc
    else acc.reverse

/-- The `raw` token list of `_find_numbers`. -/
def rawTokens (textLower : List Char) : List Tok :=
  scanAux (mkAlphaBnd textLower).1 (mkAlphaBnd textLower).2
    (mkAlphaBnd textLower).1.length 0 []

/-- The tens+units / times-hundred combining pass at the end of
`_find_numbers`.  `i += 2` (both tokens consumed by a merge) is encoded
by the `skip` flag, which drops the already-consumed second token. -/
def combineAux : List Tok → Bool → List Nat
  | [], _ => []
  | t :: rest, skip =>
    if skip then combineAux rest false
    else
      match rest with
      | [] => [t.1]
      | t2 :: _ =>
        if t2.2.1 = t.2.2 then
          if tensVals.contains t.1 && (decide (1 ≤ t2.1) && decide (t2.1 ≤ 9)) then
            (t.1 + t2.1) :: combineAux rest true
          else if t2.1 = 100 then
            (t.1 * 100) :: combineAux rest true
          else t.1 :: combineAux rest false
        else t.1 :: combineAux rest false

/-- The combining pass on a whole token list. -/
def combine (l : List Tok) : List Nat := combineAux l false

/-- `_find_numbers(text_lower)`. -/
def findNumbers (textLower : List Char) : List Nat :=
  combine (rawTokens textLower)

/-- Python `\s` at ASCII scope. -/
def pyIsSpace (c : Char) : Bool :=
  [' ', '\t', '\n', '\x0b', '\x0c', '\r'].contains c

/-- Python `\w` at ASCII scope (used for the `\b` in `\bby\b`). -/
def pyIsWordChar (c : Char) : Bool := c.isAlphanum || c == '_'

/-- Maximal runs of identical characters: `runs "aab" = [(a,2),(b,1)]`. -/
def runsAux : List Char → Char → Nat → List (Char × Nat)
  | [], c, n => [(c, n)]
  | x :: rest, c, n =>
    if x = c then runsAux rest c (n + 1) else (c, n) :: runsAux rest x 1

/-- Group a string into maximal runs. -/
def charRuns : List Char → List (Char × Nat)
  | [] => []
  | x :: rest => runsAux rest x 1

/-- `_dedup`: `re.sub(r'(.)\1{2,}', r'\1', s)` — every maximal run of three
or more identical characters collapses to one.  `.` does not match a
newline, so newline runs are kept. -/
def dedup3 (l : List Char) : List Char :=
  (charRuns l).flatMap (fun cn =>
    List.replicate (if 3 ≤ cn.2 && cn.1 != '\n' then 1 else cn.2) cn.1)

/-- The `alpha_digits` view: `re.sub(r'[^a-zA-Z0-9]', '', text).lower()`. -/
def alphaDigitsView (s : List Char) : List Char :=
  (s.filter (fun c => c.isAlphanum)).map Char.toLower

/-- The `spaced` view: `_dedup(re.sub(r'[^a-zA-Z0-9\s]', ' ', text).lower())`. -/
def spacedView (s : List Char) : List Char :=
  dedup3 ((s.map (fun c => if c.isAlphanum || pyIsSpace c then c else ' ')).map Char.toLower)

/-- `ctx = alpha_digits + ' ' + spaced`. -/
def ctxView (s : List Char) : List Char :=
  alphaDigitsView s ++ ' ' :: spacedView s

/-- `re.findall(r'\d+', s)` converted by `int`, building each run's value
as the scan goes. -/
def digitRunsAux : List Char → Option Nat → List Nat
  | [], none => []
  | [], some v => [v]
  | c :: rest, cur =>
    if c.isDigit then digitRunsAux rest (some ((cur.getD 0) * 10 + (c.toNat - 48)))
    else
      match cur with
      | some v => v :: digitRunsAux rest none
      | none => digitRunsAux rest none

/-- All decimal-digit runs of a string, as numbers. -/
def digitRuns (l : List Char) : List Nat := digitRunsAux l none

/-- One atom of the keyword regexes of `solve_challenge`: `c+`, a literal
character, or a character class. -/
inductive RTok where
  | many : Char → RTok
  | lit : Char → RTok
  | cls : List Char → RTok
deriving DecidableEq

/-- Backtracking matcher for a sequence of atoms against a prefix of the
text (recursion on the text, which every atom consumes). -/
def matchToks : List Char → List RTok → Bool
  | _, [] => true
  | [], _ :: _ => false
  | x :: xs, RTok.lit c :: ps => x == c && matchToks xs ps
  | x :: xs, RTok.cls cs :: ps => cs.contains x && matchToks xs ps
  | x :: xs, RTok.many c :: ps =>
    x == c && (matchToks xs (RTok.many c :: ps) || matchToks xs ps)

/-- `re.search`: some alternative matches at some position. -/
def searchPat (alts : List (List RTok)) : List Char → Bool
  | [] => alts.any (fun a => matchToks [] a)
  | c :: rest => alts.any (fun a => matchToks (c :: rest) a) || searchPat alts rest

/-- `c+` for every character of a literal word. -/
def plusW (s : String) : List RTok := s.toList.map RTok.many

/-- `m+u+l+t+i+p+l+[iy]|t+r+i+p+l+e[sd]?|d+o+u+b+l+e[sd]?|t+i+m+e+s|f+a+c+t+o+r`.
A trailing optional group never changes whether `re.search` finds a match,
so `[sd]?` is dropped from the alternatives it ends. -/
def multAlts : List (List RTok) :=
  [plusW "multipl" ++ [RTok.cls ['i', 'y']],
   plusW "tripl" ++ [RTok.lit 'e'],
   plusW "doubl" ++ [RTok.lit 'e'],
   plusW "time" ++ [RTok.lit 's'],
   plusW "facto" ++ [RTok.lit 'r']]

/-- `d+i+v+i+d+e[db]|s+p+l+i+t+s+i+n+t+o|p+e+r+g+r+o+u+p|d+i+v+i+d+e+s`. -/
def divAlts : List (List RTok) :=
  [plusW "divid" ++ [RTok.lit 'e', RTok.cls ['d', 'b']],
   plusW "splitsinto",
   plusW "pergroup",
   plusW "divide" ++ [RTok.lit 's']]

/-- The subtraction keyword pattern (trailing optional endings dropped, as
they never change `re.search`'s boolean result):
`s+l+o+w+…|l+o+s+e+s?|m+i+n+u+s|r+e+d+u+c+e+s?|d+e+c+r+e+a+s+e+s?|d+r+o+p+s?|r+e+m+o+v+e+s?|s+u+b+t+r+a+c+t+s?|f+e+w+e+r|d+e+c+e+l+e+r+a+t+e+s?`. -/
def subAlts : List (List RTok) :=
  [plusW "slow", plusW "lose", plusW "minu" ++ [RTok.lit 's'], plusW "reduce",
   plusW "decrease", plusW "drop", plusW "remove", plusW "subtract",
   plusW "fewe" ++ [RTok.lit 'r'], plusW "decelerate"]

/-- `p+l+u+s|g+a+i+n+s|i+n+c+r+e+a+s+e+s|c+o+m+b+i+n+e+d|t+o+t+a+l|a+d+d+s|t+o+g+e+t+h+e+r|a+c+c+e+l+e+r+a+t+e+s`. -/
def addAlts : List (List RTok) :=
  [plusW "plu" ++ [RTok.lit 's'], plusW "gain" ++ [RTok.lit 's'],
   plusW "increase" ++ [RTok.lit 's'], plusW "combine" ++ [RTok.lit 'd'],
   plusW "tota" ++ [RTok.lit 'l'], plusW "add" ++ [RTok.lit 's'],
   plusW "togethe" ++ [RTok.lit 'r'], plusW "accelerate" ++ [RTok.lit 's']]

/-- `d+o+u+b+l+e[sd]?` of the single-number branch. -/
def doubleAlts : List (List RTok) := [plusW "doubl" ++ [RTok.lit 'e']]

/-- `t+r+i+p+l+e[sd]?` of the single-number branch. -/
def tripleAlts : List (List RTok) := [plusW "tripl" ++ [RTok.lit 'e']]

/-- `h+a+l+v+e[sd]?` of the single-number branch. -/
def halveAlts : List (List RTok) := [plusW "halv" ++ [RTok.lit 'e']]

/-- Helper for `\bby\b`: the next character, if any, must not be a word
character. -/
def nextNotWord : List Char → Bool
  | [] => true
  | c :: _ => !pyIsWordChar c

/-- Scan for `\bby\b`, carrying whether the previous character was a word
character. -/
def hasWordByFrom : Bool → List Char → Bool
  | _, [] => false
  | prevW, c :: rest =>
    (c == 'b' && !prevW &&
      (match rest with
       | c2 :: rest2 => c2 == 'y' && nextNotWord rest2
       | [] => false)) ||
    hasWordByFrom (pyIsWordChar c) rest

/-- `re.search(r'\bby\b', s)`. -/
def byMatches (l : List Char) : Bool := hasWordByFrom false l

/-- The Python exceptions the solver can reach. -/
inductive PyErr where
  | indexError
  | zeroDivisionError
deriving DecidableEq

/-- Python list indexing, which raises `IndexError` out of range. -/
def pyGet (l : List Nat) (i : Nat) : Except PyErr Nat :=
  match l.get? i with
  | some v => .ok v
  | none => .error .indexError

/-- Python division, which raises `ZeroDivisionError` on a zero divisor
(also for floats). -/
def pyDiv (a b : ℚ) : Except PyErr ℚ :=
  if b = 0 then .error .zeroDivisionError else .ok (a / b)

/-- Digit character of a value below ten. -/
def digitChar (n : Nat) : Char := Char.ofNat (48 + n)

/-- Decimal digits of a natural number (fuel-bounded division loop). -/
def natToDigitsAux : Nat → Nat → List Char → List Char
  | 0, _, acc => acc
  | fuel + 1, n, acc =>
    if n < 10 then digitChar n :: acc
    else natToDigitsAux fuel (n / 10) (digitChar (n % 10) :: acc)

/-- Decimal representation of a natural number. -/
def natToStr (n : Nat) : String := String.mk (natToDigitsAux (n + 1) n [])

/-- Round to the nearest integer, ties to the even integer — the rounding
of CPython's fixed-point float formatting, modelled on rationals.  With
`q = n / d` (`d > 0`), `f` is the floor and `m = n - f * d` the scaled
remainder, so `q` is below, above, or exactly at the half point according
as `2 m` compares to `d`. -/
def roundHalfEven (q : ℚ) : ℤ :=
  let n := q.num
  let d : ℤ := (q.den : ℤ)
  let f := Int.fdiv n d
  let m := n - f * d
  if 2 * m < d then f
  else if d < 2 * m then f + 1
  else if f % 2 = 0 then f else f + 1

/-- `f"{x:.2f}"`: fixed-point formatting with exactly two fractional
digits, modelled on rationals. -/
def fmt2 (q : ℚ) : String :=
  let n := roundHalfEven (q * 100)
  let m := n.natAbs
  (if n < 0 then "-" else "") ++ natToStr (m / 100) ++ "." ++
    (if m % 100 < 10 then "0" else "") ++ natToStr (m % 100)

/-- The single-number special cases of `solve_challenge` (doubles, triples,
halves), lines 244-250. -/
def singleEval (a : ℚ) (ctx : List Char) : Except PyErr (Option String) :=
  if searchPat doubleAlts ctx then .ok (some (fmt2 (a * 2)))
  else if searchPat tripleAlts ctx then .ok (some (fmt2 (a * 3)))
  else if searchPat halveAlts ctx then do
    let q ← pyDiv a 2
    .ok (some (fmt2 q))
  else .ok none

/-- The two-operand classifier and evaluator of `solve_challenge`, lines
280-294: Multiply, then Divide (with the `b == 0 → "0.00"` guard), then
Subtract, then Add, then the addition default. -/
def twoOpEval (a b : ℚ) (ctx : List Char) : Except PyErr String :=
  if searchPat multAlts ctx then .ok (fmt2 (a * b))
  else if searchPat divAlts ctx then
    (if b ≠ 0 then do
      let q ← pyDiv a b
      .ok (fmt2 q)
    else .ok "0.00")
  else if searchPat subAlts ctx then .ok (fmt2 (a - b))
  else if searchPat addAlts ctx then .ok (fmt2 (a + b))
  else .ok (fmt2 (a + b))

/-- The phantom-tens suppression loop of `solve_challenge`, lines 259-268:
drop a standalone tens value directly before a value in the same decade. -/
def denoise : List Nat → List Nat
  | [] => []
  | x :: rest =>
    match rest with
    | [] => [x]
    | y :: _ =>
      if x % 10 = 0 && (decide (0 < x) && decide (x < 100)) &&
          (decide (x < y) && decide (y < x + 10)) then
        denoise rest
      else x :: denoise rest

/-- `if denoised: numbers = denoised` (lines 269-270). -/
def resolveNoise (numbers : List Nat) : List Nat :=
  let d := denoise numbers
  if d.isEmpty then numbers else d

/-- The operand selection of lines 275-278: with three or more numbers and
a standalone `by` in the spaced view take the last two, otherwise the
first two (Python list indexing, so a too-short list raises). -/
def selectPair (ns : List Nat) (spaced : List Char) : Except PyErr (ℚ × ℚ) :=
  if 3 ≤ ns.length && byMatches spaced then do
    let a ← pyGet ns (ns.length - 2)
    let b ← pyGet ns (ns.length - 1)
    .ok ((a : ℚ), (b : ℚ))
  else do
    let a ← pyGet ns 0
    let b ← pyGet ns 1
    .ok ((a : ℚ), (b : ℚ))

/-- Lines 257-294 of `solve_challenge`: denoising, operand selection and
two-operand evaluation. -/
def solveTwoOp (numbers : List Nat) (ctx spaced : List Char) :
    Except PyErr (Option String) := do
  let ab ← selectPair (resolveNoise numbers) spaced
  let r ← twoOpEval ab.1 ab.2 ctx
  .ok (some r)

/-- Lines 244-294 of `solve_challenge`: the single-number branch, the
raw-digit fallback for an empty extraction, and the two-operand pipeline. -/
def solveFromNumbers (numbers : List Nat) (ctx spaced : List Char) :
    Except PyErr (Option String) :=
  if numbers.length = 1 then do
    let n ← pyGet numbers 0
    singleEval (n : ℚ) ctx
  else if numbers.length < 2 then
    let raw := digitRuns spaced
    if raw.length < 2 then .ok none
    else solveTwoOp raw ctx spaced
  else solveTwoOp numbers ctx spaced

/-- `solve_challenge(challenge_text)`: build the two views, extract the
numbers from the lowercased text, and solve.  `.ok (some s)` is a solved
answer, `.ok none` is the explicit unsolved signal (`return None`), and
`.error` is a raised exception. -/
def solveChallenge (s : List Char) : Except PyErr (Option String) :=
  solveFromNumbers (findNumbers (s.map Char.toLower)) (ctxView s) (spacedView s)

/-! ## Invariant predicates -/

/-- The last token of `prev` followed by `xs` — the value of `raw[-1]` when
the scan is about to extend `xs` (with earlier context `prev`). -/
def lastD (prev : Option Tok) (xs : List Tok) : Option Tok :=
  match xs.getLast? with
  | some x => some x
  | none => prev

/-- A token the scan may produce after predecessor `prev`: either it sits
at a digit position (a bare-integer token), or some dictionary word
matches its span under a substitution budget of 0, or of 1 for a word of
length at least 5, and the acceptance condition of `_find_numbers` holds:
the match ends at a run boundary, or another number word starts right
after it, or it is a units word in 1..9 directly following a tens token. -/
def TokOK (ad : List Char) (bnds : List Nat) (prev : Option Tok) (t : Tok) : Prop :=
  (ad.getD t.2.1 ' ').isDigit = true ∨
  ∃ w ∈ SORTED_WORDS, ∃ ms,
    (ms = 0 ∨ (ms = 1 ∧ 5 ≤ w.length)) ∧
    wordMatchesAt w ad t.2.1 ms bnds = some t.2.2 ∧ t.1 = w2n w ∧
    (bnds.contains t.2.2 = true ∨ nextIsNum ad bnds t.2.2 = true ∨
      (prevIsTensB prev t.2.1 = true ∧ 1 ≤ w2n w ∧ w2n w ≤ 9))

/-- Every token of the list is `TokOK` with respect to its predecessor. -/
def TokChainOK (ad : List Char) (bnds : List Nat) : Option Tok → List Tok → Prop
  | _, [] => True
  | prev, t :: rest => TokOK ad bnds prev t ∧ TokChainOK ad bnds (some t) rest

/-! ## Helper lemmas -/

/-- Sequencing a successful `Except` step is application. -/
theorem ok_bind {ε α β : Type} (x : α) (f : α → Except ε β) :
    (do let y ← (Except.ok x : Except ε α); f y) = f x := rfl

/-- Python indexing with a valid index returns the element. -/
theorem pyGet_ok (l : List Nat) (i : Nat) (h : i < l.length) :
    pyGet l i = .ok (l.getD i 0) := by
  simp [pyGet, List.get?_eq_getElem?, List.getElem?_eq_getElem h,
    List.getD_eq_getElem?_getD]

/-- Zero formats as the literal string `"0.00"`. -/
theorem fmt2_zero : fmt2 0 = "0.00" := by
  have h : (0 : ℚ) * 100 = 0 := by norm_num
  unfold fmt2
  rw [h]
  rfl

/-- A character run starting at a position holding that character is
nonempty. -/
theorem runLen_pos {text : List Char} {ti : Nat} {c : Char}
    (hti : ti < text.length) (hc : text.getD ti ' ' = c) :
    1 ≤ runLen text ti c := by
  unfold runLen
  rw [List.drop_eq_getElem_cons hti, ← List.getD_eq_getElem text ' ' hti, hc]
  simp [List.takeWhile_cons]

/-- A successful match consumes at least one text character per word
character. -/
theorem wmAux_le {text : List Char} {bnds : List Nat} {maxSubs : Nat} :
    ∀ (w : List Char) (first : Bool) (ti subs e : Nat),
      wmAux text bnds maxSubs w first ti subs = some e → ti + w.length ≤ e := by
  intro w
  induction w with
  | nil =>
    intro first ti subs e h
    simp only [wmAux, Option.some.injEq] at h
    simp only [List.length_nil]
    omega
  | cons c rest ih =>
    intro first ti subs e h
    rw [wmAux] at h
    by_cases hti : text.length ≤ ti
    · rw [if_pos hti] at h
      exact absurd h (by simp)
    · rw [if_neg hti] at h
      by_cases htc : text.getD ti ' ' = c
      · rw [if_pos htc] at h
        have hrun : 1 ≤ runLen text ti c := runLen_pos (by omega) htc
        have h1 := ih false _ subs e h
        have h2 : ti + 1 ≤
            (if rest.isEmpty then
              (if bnds.contains (ti + runLen text ti c) then ti + runLen text ti c else ti + 1)
             else if rest.head? = some c then ti + 1
             else ti + runLen text ti c) := by
          split_ifs <;> omega
        simp only [List.length_cons]
        omega
      · rw [if_neg htc] at h
        by_cases hs : (subs < maxSubs && !first && !rest.isEmpty) = true
        · rw [if_pos hs] at h
          have h1 := ih false (ti + 1) (subs + 1) e h
          simp only [List.length_cons]
          omega
        · rw [if_neg hs] at h
          exact absurd h (by simp)

/-- The candidate filter keeps the best end strictly beyond the scan
position: a produced match always ends after `pos`. -/
theorem pickBest_gt {ad : List Char} {bnds : List Nat} {pos : Nat} {pt : Bool}
    {ms ml : Nat} :
    ∀ (ws : List (List Char)) (bestVal : Option Nat) (bestEnd : Nat),
      pos ≤ bestEnd → (bestVal.isSome = true → pos < bestEnd) →
      ∀ r, pickBest ad bnds pos pt ms ml ws bestVal bestEnd = some r → pos < r.2 := by
  intro ws
  induction ws with
  | nil =>
    intro bestVal bestEnd hle hsome r h
    rw [pickBest] at h
    cases bestVal with
    | none => exact absurd h (by simp)
    | some v =>
      simp only [Option.map_some'] at h
      cases h
      exact hsome rfl
  | cons w ws ih =>
    intro bestVal bestEnd hle hsome r h
    rw [pickBest] at h
    split at h
    · exact ih bestVal bestEnd hle hsome r h
    · split at h
      · exact ih bestVal bestEnd hle hsome r h
      · rename_i e heq
        split at h
        · rename_i hc
          simp only [Bool.and_eq_true, decide_eq_true_eq] at hc
          exact ih (some (w2n w)) e (by omega) (fun _ => by omega) r h
        · exact ih bestVal bestEnd hle hsome r h

/-- Provenance of a `pickBest` result: it is the start state or some word
of the list that passed the length filter, matched, and was accepted. -/
theorem pickBest_sound {ad : List Char} {bnds : List Nat} {pos : Nat} {pt : Bool}
    {ms ml : Nat} :
    ∀ (ws : List (List Char)) (bestVal : Option Nat) (bestEnd : Nat) (r : Nat × Nat),
      pickBest ad bnds pos pt ms ml ws bestVal bestEnd = some r →
      (bestVal = some r.1 ∧ bestEnd = r.2) ∨
      ∃ w ∈ ws, ml ≤ w.length ∧ wordMatchesAt w ad pos ms bnds = some r.2 ∧
        r.1 = w2n w ∧ acceptTok ad bnds pt w r.2 = true := by
  intro ws
  induction ws with
  | nil =>
    intro bestVal bestEnd r h
    rw [pickBest] at h
    cases bestVal with
    | none => exact absurd h (by simp)
    | some v =>
      simp only [Option.map_some'] at h
      cases h
      exact Or.inl ⟨rfl, rfl⟩
  | cons w ws ih =>
    intro bestVal bestEnd r h
    rw [pickBest] at h
    split at h
    · rcases ih bestVal bestEnd r h with h1 | ⟨w', hw', hrest⟩
      · exact Or.inl h1
      · exact Or.inr ⟨w', List.mem_cons_of_mem _ hw', hrest⟩
    · rename_i hlen
      split at h
      · rcases ih bestVal bestEnd r h with h1 | ⟨w', hw', hrest⟩
        · exact Or.inl h1
        · exact Or.inr ⟨w', List.mem_cons_of_mem _ hw', hrest⟩
      · rename_i e heq
        split at h
        · rename_i hc
          simp only [Bool.and_eq_true] at hc
          rcases ih (some (w2n w)) e r h with ⟨h1, h2⟩ | ⟨w', hw', hrest⟩
          · refine Or.inr ⟨w, List.mem_cons_self _ _, by omega, ?_, ?_, ?_⟩
            · rw [heq, h2]
            · exact Option.some.inj h1.symm ▸ rfl
            · rw [← h2]; exact hc.2
          · exact Or.inr ⟨w', List.mem_cons_of_mem _ hw', hrest⟩
        · rcases ih bestVal bestEnd r h with h1 | ⟨w', hw', hrest⟩
          · exact Or.inl h1
          · exact Or.inr ⟨w', List.mem_cons_of_mem _ hw', hrest⟩

/-- A `bestMatch` result ends strictly after the scan position. -/
theorem bestMatch_gt {ad : List Char} {bnds : List Nat} {pos : Nat} {pt : Bool}
    {r : Nat × Nat} (h : bestMatch ad bnds pos pt = some r) : pos < r.2 := by
  rw [bestMatch] at h
  split at h
  · rename_i r0 heq
    cases h
    exact pickBest_gt SORTED_WORDS none pos le_rfl (by simp) _ heq
  · exact pickBest_gt SORTED_WORDS none pos le_rfl (by simp) r h

/-- Provenance of a `bestMatch` result: a dictionary word matched at the
position — with no substitutions, or with budget 1 if it has at least 5
characters — and passed the acceptance condition. -/
theorem bestMatch_sound {ad : List Char} {bnds : List Nat} {pos : Nat} {pt : Bool}
    {r : Nat × Nat} (h : bestMatch ad bnds pos pt = some r) :
    ∃ w ∈ SORTED_WORDS, ∃ ms, (ms = 0 ∨ (ms = 1 ∧ 5 ≤ w.length)) ∧
      wordMatchesAt w ad pos ms bnds = some r.2 ∧ r.1 = w2n w ∧
      acceptTok ad bnds pt w r.2 = true := by
  rw [bestMatch] at h
  split at h
  · rename_i r0 heq
    cases h
    rcases pickBest_sound SORTED_WORDS none pos _ heq with ⟨h1, _⟩ | ⟨w, hw, _, hm, hv, ha⟩
    · exact absurd h1 (by simp)
    · exact ⟨w, hw, 0, Or.inl rfl, hm, hv, ha⟩
  · rcases pickBest_sound SORTED_WORDS none pos r h with ⟨h1, _⟩ | ⟨w, hw, hl, hm, hv, ha⟩
    · exact absurd h1 (by simp)
    · exact ⟨w, hw, 1, Or.inr ⟨rfl, hl⟩, hm, hv, ha⟩

/-- Appending a token that is `TokOK` after the current last token keeps a
chain valid. -/
theorem chainOK_append {ad : List Char} {bnds : List Nat} :
    ∀ (xs : List Tok) (prev : Option Tok) (t : Tok),
      TokChainOK ad bnds prev xs → TokOK ad bnds (lastD prev xs) t →
      TokChainOK ad bnds prev (xs ++ [t]) := by
  intro xs
  induction xs with
  | nil =>
    intro prev t _ ht
    exact ⟨by simpa [lastD] using ht, trivial⟩
  | cons x xs ih =>
    intro prev t hc ht
    refine ⟨hc.1, ih (some x) t hc.2 ?_⟩
    have hl : lastD prev (x :: xs) = lastD (some x) xs := by
      cases xs with
      | nil => simp [lastD]
      | cons y ys =>
        rcases hz : (y :: ys).getLast? with _ | z
        · exact absurd hz (by simp)
        · simp [lastD, List.getLast?_cons_cons, hz]
    rw [← hl]
    exact ht

/-- `lastD` with no earlier context is the last element. -/
theorem lastD_none (xs : List Tok) : lastD none xs = xs.getLast? := by
  cases h : xs.getLast? <;> simp [lastD, h]

/-- A digit position starts a nonempty digit run. -/
theorem digitRun_pos {ad : List Char} {pos : Nat} (hp : pos < ad.length)
    (hd : (ad.getD pos ' ').isDigit = true) :
    1 ≤ ((ad.drop pos).takeWhile Char.isDigit).length := by
  rw [List.drop_eq_getElem_cons hp, ← List.getD_eq_getElem ad ' ' hp]
  rw [List.takeWhile_cons, if_pos hd]
  simp

/-- The scan invariant: starting from an accumulator whose reverse is a
valid token chain, the scan produces a valid token chain. -/
theorem scanAux_chain {ad : List Char} {bnds : List Nat} :
    ∀ (fuel pos : Nat) (acc : List Tok),
      TokChainOK ad bnds none acc.reverse →
      TokChainOK ad bnds none (scanAux ad bnds fuel pos acc) := by
  intro fuel
  induction fuel with
  | zero =>
    intro pos acc hacc
    rw [scanAux]
    exact hacc
  | succ fuel ih =>
    intro pos acc hacc
    rw [scanAux]
    split
    · rename_i hpos
      split
      · rename_i hd
        refine ih _ _ ?_
        rw [List.reverse_cons]
        exact chainOK_append _ _ _ hacc (Or.inl hd)
      · rcases hbm : bestMatch ad bnds pos (prevIsTensB acc.head? pos) with _ | ⟨v, e⟩
        · simp only [hbm]
          exact ih _ _ hacc
        · simp only [hbm]
          refine ih _ _ ?_
          rw [List.reverse_cons]
          refine chainOK_append _ _ _ hacc ?_
          right
          obtain ⟨w, hw, ms, hms, hm, hv, ha⟩ := bestMatch_sound hbm
          refine ⟨w, hw, ms, hms, hm, hv, ?_⟩
          have hld : prevIsTensB (lastD none acc.reverse) pos = prevIsTensB acc.head? pos := by
            rw [lastD_none, List.getLast?_reverse]
          simp only [acceptTok, Bool.or_eq_true, Bool.and_eq_true, decide_eq_true_eq] at ha
          rcases ha with (h | h) | ⟨hp, h1, h9⟩
          · exact Or.inl h
          · exact Or.inr (Or.inl h)
          · exact Or.inr (Or.inr ⟨by rw [hld]; exact hp, h1, h9⟩)
    · exact hacc

/-- Every raw token chain of `_find_numbers` is valid. -/
theorem rawTokens_chainOK (tl : List Char) :
    TokChainOK (mkAlphaBnd tl).1 (mkAlphaBnd tl).2 none (rawTokens tl) :=
  scanAux_chain _ 0 [] trivial

/-- The scan result does not depend on the fuel bound, as long as the fuel
covers the remaining length: every iteration advances the position by at
least one character. -/
theorem scanAux_fuel {ad : List Char} {bnds : List Nat} :
    ∀ (f1 f2 pos : Nat) (acc : List Tok),
      ad.length - pos ≤ f1 → ad.length - pos ≤ f2 →
      scanAux ad bnds f1 pos acc = scanAux ad bnds f2 pos acc := by
  intro f1
  induction f1 with
  | zero =>
    intro f2 pos acc h1 h2
    cases f2 with
    | zero => rfl
    | succ f2 =>
      rw [scanAux, scanAux, if_neg (by omega)]
  | succ f1 ih =>
    intro f2 pos acc h1 h2
    by_cases hpos : pos < ad.length
    · cases f2 with
      | zero => omega
      | succ f2 =>
        rw [scanAux, scanAux, if_pos hpos, if_pos hpos]
        by_cases hd : (ad.getD pos ' ').isDigit = true
        · rw [if_pos hd, if_pos hd]
          have hds := digitRun_pos hpos hd
          exact ih f2 _ _ (by omega) (by omega)
        · rw [if_neg hd, if_neg hd]
          rcases hbm : bestMatch ad bnds pos (prevIsTensB acc.head? pos) with _ | ⟨v, e⟩
          · simp only [hbm]
            exact ih f2 _ _ (by omega) (by omega)
          · simp only [hbm]
            have he := bestMatch_gt hbm
            exact ih f2 e _ (by omega) (by omega)
    · cases f2 with
      | zero => rw [scanAux, scanAux, if_neg hpos]
      | succ f2 => rw [scanAux, scanAux, if_neg hpos, if_neg hpos]

/-- The instrumented matcher agrees with `_word_matches_at` on the match
end. -/
theorem wmAuxC_fst {text : List Char} {bnds : List Nat} {maxSubs : Nat} :
    ∀ (w : List Char) (first : Bool) (ti subs : Nat),
      (wmAuxC text bnds maxSubs w first ti subs).map Prod.fst =
        wmAux text bnds maxSubs w first ti subs := by
  intro w
  induction w with
  | nil => intro first ti subs; rfl
  | cons c rest ih =>
    intro first ti subs
    rw [wmAux, wmAuxC]
    by_cases h1 : text.length ≤ ti
    · rw [if_pos h1, if_pos h1]; rfl
    · rw [if_neg h1, if_neg h1]
      by_cases h2 : text.getD ti ' ' = c
      · rw [if_pos h2, if_pos h2]
        exact ih false _ subs
      · rw [if_neg h2, if_neg h2]
        by_cases h3 : (subs < maxSubs && !first && !rest.isEmpty) = true
        · rw [if_pos h3, if_pos h3]
          exact ih false (ti + 1) (subs + 1)
        · rw [if_neg h3, if_neg h3]; rfl

/-- The substitution counter never exceeds the budget. -/
theorem wmAuxC_subs {text : List Char} {bnds : List Nat} {maxSubs : Nat} :
    ∀ (w : List Char) (first : Bool) (ti subs e s : Nat),
      subs ≤ maxSubs → wmAuxC text bnds maxSubs w first ti subs = some (e, s) →
      subs ≤ s ∧ s ≤ maxSubs := by
  intro w
  induction w with
  | nil =>
    intro first ti subs e s hle h
    simp only [wmAuxC, Option.some.injEq, Prod.mk.injEq] at h
    omega
  | cons c rest ih =>
    intro first ti subs e s hle h
    rw [wmAuxC] at h
    by_cases h1 : text.length ≤ ti
    · rw [if_pos h1] at h; exact absurd h (by simp)
    · rw [if_neg h1] at h
      by_cases h2 : text.getD ti ' ' = c
      · rw [if_pos h2] at h
        exact ih false _ subs e s hle h
      · rw [if_neg h2] at h
        by_cases h3 : (subs < maxSubs && !first && !rest.isEmpty) = true
        · rw [if_pos h3] at h
          simp only [Bool.and_eq_true, decide_eq_true_eq] at h3
          have := ih false (ti + 1) (subs + 1) e s (by omega) h
          omega
        · rw [if_neg h3] at h; exact absurd h (by simp)

/-! ## Claim theorems -/

/-- C1: the spec says the solver is total and no internal stage throws for
any input.  The code raises `IndexError`: on the spec's own scenario input
the phantom-tens suppression shrinks the number list from `[40, 45]` to
`[45]` after the one-number special case was already checked, and
`numbers[1]` is then out of range. -/
theorem solver_raises_index_error :
    solveChallenge ("Forty fortyfive widgets total.".toList) = .error .indexError := by
  rfl

/-- C2: on `"Forty fortyfive widgets total."` extraction yields `[40, 45]`
and phantom-tens suppression resolves that to the single value `45` (as
the claim states), but the solver then raises `IndexError` instead of
taking the single-operand path and returning the unsolved signal. -/
theorem forty_fortyfive_trace :
    findNumbers (("Forty fortyfive widgets total.".toList).map Char.toLower) = [40, 45] ∧
    resolveNoise (findNumbers (("Forty fortyfive widgets total.".toList).map Char.toLower)) = [45] ∧
    solveChallenge ("Forty fortyfive widgets total.".toList) = .error .indexError := by
  refine ⟨by rfl, by rfl, by rfl⟩

/-- C3: in the Divide branch a zero second operand yields the literal
string `"0.00"` with no exception (this also holds when the Multiply
pattern preempts Divide, since `a * 0` formats to `"0.00"` as well), and a
nonzero second operand yields `a / b` formatted to two fractional digits. -/
theorem divide_by_zero_guard (a b : ℚ) (ctx : List Char) :
    (searchPat divAlts ctx = true → b = 0 → twoOpEval a b ctx = .ok "0.00") ∧
    (searchPat divAlts ctx = true → searchPat multAlts ctx = false → b ≠ 0 →
      twoOpEval a b ctx = .ok (fmt2 (a / b))) := by
  constructor
  · intro hdiv hb
    subst hb
    by_cases hm : searchPat multAlts ctx = true
    · simp [twoOpEval, hm, fmt2_zero]
    · simp only [Bool.not_eq_true] at hm
      simp [twoOpEval, hm, hdiv]
  · intro hdiv hm hb
    simp [twoOpEval, hm, hdiv, hb, pyDiv, ok_bind]

/-- C4: the two-operand evaluation tries Multiply, Divide, Subtract, Add in
that fixed order — the first matching category decides the operation no
matter which later-priority keywords also occur — and when no category
matches the result defaults to `a + b` (so the Add keyword branch and the
default agree). -/
theorem priority_order_two_op (a b : ℚ) (ctx : List Char) :
    (searchPat multAlts ctx = true → twoOpEval a b ctx = .ok (fmt2 (a * b))) ∧
    (searchPat multAlts ctx = false → searchPat divAlts ctx = true →
      twoOpEval a b ctx = if b = 0 then .ok "0.00" else .ok (fmt2 (a / b))) ∧
    (searchPat multAlts ctx = false → searchPat divAlts ctx = false →
      searchPat subAlts ctx = true → twoOpEval a b ctx = .ok (fmt2 (a - b))) ∧
    (searchPat multAlts ctx = false → searchPat divAlts ctx = false →
      searchPat subAlts ctx = false → twoOpEval a b ctx = .ok (fmt2 (a + b))) := by
  refine ⟨fun h1 => ?_, fun h1 h2 => ?_, fun h1 h2 h3 => ?_, fun h1 h2 h3 => ?_⟩
  · simp [twoOpEval, h1]
  · by_cases hb : b = 0
    · simp [twoOpEval, h1, h2, hb]
    · simp [twoOpEval, h1, h2, hb, pyDiv, ok_bind]
  · simp [twoOpEval, h1, h2, h3]
  · by_cases h4 : searchPat addAlts ctx = true
    · simp [twoOpEval, h1, h2, h3, h4]
    · simp only [Bool.not_eq_true] at h4
      simp [twoOpEval, h1, h2, h3, h4]

/-- C6: adjacent tokens with zero gap whose values are a tens multiple in
20..90 followed by a units value in 1..9 merge into their sum, and both
`"twenty three"` and `"twentythree"` resolve to the single value 23. -/
theorem tens_units_merge :
    (∀ (t t2 : Tok) (rest : List Tok), t2.2.1 = t.2.2 →
      tensVals.contains t.1 = true → 1 ≤ t2.1 → t2.1 ≤ 9 →
      combine (t :: t2 :: rest) = (t.1 + t2.1) :: combine rest) ∧
    findNumbers ("twenty three".toList) = [23] ∧
    findNumbers ("twentythree".toList) = [23] := by
  refine ⟨fun t t2 rest hgap htens h1 h9 => ?_, by rfl, by rfl⟩
  have htens' : t.1 ∈ tensVals := by simpa using htens
  simp [combine, combineAux, hgap, htens', h1, h9]

/-- C7: with three or more numbers, a standalone whole word `by` in the
spaced view selects the last two numbers as operands, and otherwise the
first two are selected.  (`solveTwoOp` applies this selection to the
denoised sequence `resolveNoise numbers`, i.e. to the numbers that
survive resolution.) -/
theorem by_heuristic_selects (ns : List Nat) (spaced : List Char)
    (h3 : 3 ≤ ns.length) :
    (byMatches spaced = true →
      selectPair ns spaced =
        .ok ((ns.getD (ns.length - 2) 0 : ℚ), (ns.getD (ns.length - 1) 0 : ℚ))) ∧
    (byMatches spaced = false →
      selectPair ns spaced = .ok ((ns.getD 0 0 : ℚ), (ns.getD 1 0 : ℚ))) := by
  constructor
  · intro hby
    have ha : ns.length - 2 < ns.length := by omega
    have hb : ns.length - 1 < ns.length := by omega
    simp [selectPair, h3, hby, pyGet_ok _ _ ha, pyGet_ok _ _ hb, ok_bind]
  · intro hby
    have ha : 0 < ns.length := by omega
    have hb : 1 < ns.length := by omega
    simp [selectPair, hby, pyGet_ok _ _ ha, pyGet_ok _ _ hb, ok_bind]

/-- C8 counterexample: on `"12 34"` the word-matcher extraction yields the
single number 1234 (fewer than two), and the spaced view holds two raw
digit runs, yet the solver returns the unsolved signal — the claimed
fallback to the first two digit runs (which would evaluate to an answer)
does not happen, because a one-number extraction is routed to the
single-operand special cases and returns before the fallback. -/
theorem digit_fallback_counterexample :
    (findNumbers (("12 34".toList).map Char.toLower)).length = 1 ∧
    digitRuns (spacedView ("12 34".toList)) = [12, 34] ∧
    solveChallenge ("12 34".toList) = .ok none := by
  refine ⟨by rfl, by rfl, by rfl⟩

/-- C8 amended: only when zero numbers survive the word-matcher does the
solver fall back to scanning the spaced view for raw digit runs (all runs
then become the working numbers, so absent other heuristics the first two
are the operands), returning unsolved when that scan finds fewer than
two; a one-number extraction is handled by the single-operand path
without any fallback. -/
theorem digit_fallback_amended (s : List Char)
    (h0 : findNumbers (s.map Char.toLower) = []) :
    solveChallenge s =
      (if (digitRuns (spacedView s)).length < 2 then .ok none
       else solveTwoOp (digitRuns (spacedView s)) (ctxView s) (spacedView s)) := by
  simp [solveChallenge, solveFromNumbers, h0]

/-- C5: a number word embedded inside an unrelated longer word is never
extracted — every token of the raw scan either sits at a digit position,
or is a dictionary-word match accepted only because it ends at a boundary
offset, or another recognized number word begins immediately after it, or
it is a 1–9 units word immediately following the just-accepted tens token
with zero gap; concretely, `"ten"` inside `"antenna"` yields no token. -/
theorem boundary_safety :
    (∀ tl : List Char,
      TokChainOK (mkAlphaBnd tl).1 (mkAlphaBnd tl).2 none (rawTokens tl)) ∧
    findNumbers ("the antenna is long".toList) = [] :=
  ⟨rawTokens_chainOK, by rfl⟩

/-- C9: the fuzzy matcher fails outright on a first-character mismatch (any
budget) and on a last-character mismatch; a successful match from
substitution counter 0 used at most `maxSubs` substitutions; and the scan
invokes the matcher only with budget 0, or budget 1 restricted to words
of length at least 5 (the accepted tokens of every input witness this). -/
theorem interior_substitution_only :
    (∀ (c : Char) (rest text : List Char) (pos maxSubs : Nat) (bnds : List Nat),
      text.length ≤ pos ∨ text.getD pos ' ' ≠ c →
      wordMatchesAt (c :: rest) text pos maxSubs bnds = none) ∧
    (∀ (text : List Char) (bnds : List Nat) (maxSubs : Nat) (first : Bool)
      (c : Char) (ti subs : Nat), text.getD ti ' ' ≠ c →
      wmAux text bnds maxSubs [c] first ti subs = none) ∧
    (∀ (text : List Char) (bnds : List Nat) (maxSubs : Nat) (w : List Char)
      (pos e s : Nat),
      wmAuxC text bnds maxSubs w true pos 0 = some (e, s) →
      s ≤ maxSubs ∧ wordMatchesAt w text pos maxSubs bnds = some e) ∧
    (∀ tl : List Char,
      TokChainOK (mkAlphaBnd tl).1 (mkAlphaBnd tl).2 none (rawTokens tl)) := by
  refine ⟨?_, ?_, ?_, rawTokens_chainOK⟩
  · intro c rest text pos maxSubs bnds h
    rw [wordMatchesAt, wmAux]
    rcases h with h | h
    · rw [if_pos h]
    · by_cases h1 : text.length ≤ pos
      · rw [if_pos h1]
      · rw [if_neg h1, if_neg h, if_neg (by simp)]
  · intro text bnds maxSubs first c ti subs h
    rw [wmAux]
    by_cases h1 : text.length ≤ ti
    · rw [if_pos h1]
    · rw [if_neg h1, if_neg h, if_neg (by simp)]
  · intro text bnds maxSubs w pos e s h
    have h1 := wmAuxC_subs w true pos 0 e s (Nat.zero_le _) h
    have h2 := @wmAuxC_fst text bnds maxSubs w true pos 0
    rw [h] at h2
    exact ⟨h1.2, by rw [wordMatchesAt, ← h2]; rfl⟩

/-- C10: a successful fuzzy match consumes at least one text character per
word character (so its end strictly exceeds its start for a nonempty
word), a produced best match ends strictly after the scan position, and
consequently the scan loop terminates: its result is independent of the
iteration bound once the bound covers the text length. -/
theorem extraction_scan_terminates :
    (∀ (w text : List Char) (pos maxSubs : Nat) (bnds : List Nat) (e : Nat),
      wordMatchesAt w text pos maxSubs bnds = some e → pos + w.length ≤ e) ∧
    (∀ (ad : List Char) (bnds : List Nat) (pos : Nat) (pt : Bool) (r : Nat × Nat),
      bestMatch ad bnds pos pt = some r → pos < r.2) ∧
    (∀ (tl : List Char) (f : Nat), (mkAlphaBnd tl).1.length ≤ f →
      scanAux (mkAlphaBnd tl).1 (mkAlphaBnd tl).2 f 0 [] = rawTokens tl) :=
  ⟨fun w text pos ms bnds e h => wmAux_le w true pos 0 e h,
   fun _ _ _ _ _ h => bestMatch_gt h,
   fun tl f hf => scanAux_fuel f (mkAlphaBnd tl).1.length 0 [] (by omega) (by omega)⟩

/-! ## Witnesses -/

/-- Witness for C3 at concrete inputs: `8 / 0 → "0.00"` and `8 / 2 → "4.00"`
in a Divide-keyword context. -/
theorem divide_by_zero_guard_w :
    twoOpEval 8 0 ("divided".toList) = .ok "0.00" ∧
    twoOpEval 8 2 ("divided".toList) = .ok (fmt2 (8 / 2)) :=
  ⟨(divide_by_zero_guard 8 0 ("divided".toList)).1 (by rfl) rfl,
   (divide_by_zero_guard 8 2 ("divided".toList)).2 (by rfl) (by rfl) (by norm_num)⟩

/-- Witness for C4 at a context holding both `times` (Multiply) and
`fewer` (Subtract): Multiply wins. -/
theorem priority_order_two_op_w :
    twoOpEval 3 4 ("times fewer".toList) = .ok (fmt2 (3 * 4)) :=
  (priority_order_two_op 3 4 ("times fewer".toList)).1 (by rfl)

/-- Witness for C6's merge rule at the tokens of `"twentythree"`. -/
theorem tens_units_merge_w :
    combine ((20, 0, 6) :: (3, 6, 11) :: []) = (20 + 3) :: combine [] :=
  tens_units_merge.1 (20, 0, 6) (3, 6, 11) [] rfl (by rfl) (by omega) (by omega)

/-- Witness for C7 on `[2, 15, 7]`: with `by` in the spaced view the last
two are selected; without it the first two. -/
theorem by_heuristic_selects_w :
    selectPair [2, 15, 7] ("rises by seven".toList) = .ok ((15 : ℚ), (7 : ℚ)) ∧
    selectPair [2, 15, 7] ("rises seven".toList) = .ok ((2 : ℚ), (15 : ℚ)) :=
  ⟨(by_heuristic_selects [2, 15, 7] ("rises by seven".toList) (by decide)).1 (by rfl),
   (by_heuristic_selects [2, 15, 7] ("rises seven".toList) (by decide)).2 (by rfl)⟩

/-- Witness for the amended C8 on `"hello world"`: no numbers at all, the
digit fallback finds no runs, unsolved. -/
theorem digit_fallback_amended_w :
    solveChallenge ("hello world".toList) =
      (if (digitRuns (spacedView ("hello world".toList))).length < 2 then .ok none
       else solveTwoOp (digitRuns (spacedView ("hello world".toList)))
         (ctxView ("hello world".toList)) (spacedView ("hello world".toList))) :=
  digit_fallback_amended ("hello world".toList) (by rfl)

/-- Witness for C5: the chain invariant instantiated on a concrete input. -/
theorem boundary_safety_w :
    TokChainOK (mkAlphaBnd ("seven".toList)).1 (mkAlphaBnd ("seven".toList)).2
      none (rawTokens ("seven".toList)) :=
  boundary_safety.1 ("seven".toList)

/-- Witness for C9: a first-character mismatch fails even with budget 5,
and the obfuscated `"fiftenn"` matches `"fifteen"` with exactly one
substitution against budget 1. -/
theorem interior_substitution_only_w :
    wordMatchesAt ('t' :: "en".toList) ("xen".toList) 0 5 [] = none ∧
    (1 ≤ 1 ∧ wordMatchesAt ("fifteen".toList) ("fiftenn".toList) 0 1 [7] = some 7) :=
  ⟨interior_substitution_only.1 't' ("en".toList) ("xen".toList) 0 5 []
    (Or.inr (by decide)),
   interior_substitution_only.2.2.1 ("fiftenn".toList) [7] 1 ("fifteen".toList) 0 7 1
    (by rfl)⟩

/-- Witness for C10: the matcher length bound on a concrete match, and
fuel-independence of the scan on a concrete input. -/
theorem extraction_scan_terminates_w :
    0 + ("seven".toList).length ≤ 5 ∧
    scanAux (mkAlphaBnd ("twenty three".toList)).1 (mkAlphaBnd ("twenty three".toList)).2
      99 0 [] = rawTokens ("twenty three".toList) :=
  ⟨extraction_scan_terminates.1 ("seven".toList) ("seven".toList) 0 0 [5] 5 (by rfl),
   extraction_scan_terminates.2.2 ("twenty three".toList) 99 (by decide)⟩

end Molt
